import Mathlib

/-!
Verification of the BestBackground post-processing pipeline
(`src/Service/src/service.py`) against its specification.

Images, masks and scores are embedded shallowly:
* scores and coordinates are rationals (Python floats in the regime the
  claims talk about),
* a PIL image is a grid of RGBA pixels with natural-number channels,
* a grayscale (mode L) mask is a grid of natural numbers,
* the two torch models are abstract functions from an image batch to a
  list of per-image predictions,
* the PIL library operations the service calls but does not implement
  (crop, resize, GaussianBlur, composite) are abstract operations packed
  in a `PILOps` record; the operations the service's logic depends on
  (putalpha on a copy, convert to RGB, the numpy mask cleanup) are
  embedded concretely,
* Python exceptions (IndexError on `[0]` of an empty tensor, min/max of
  an empty list, indexing past the end of a list) make the embedded
  function return `none`.
-/

namespace BestBackground

abbrev Score := ℚ

/-- A detection box (x1, y1, x2, y2) in model-input pixel space. -/
abbrev Box := ℚ × ℚ × ℚ × ℚ

/-- A relative box (rx1, ry1, rx2, ry2) with coordinates in [0, 1]. -/
abbrev RBox := ℚ × ℚ × ℚ × ℚ

/-- An RGBA pixel; channels are 8-bit values 0..255. -/
abbrev Pixel := ℕ × ℕ × ℕ × ℕ

/-- A PIL image: rows of RGBA pixels. -/
structure Img where
  pixels : List (List Pixel)
deriving DecidableEq

/-- A grayscale (mode L) mask image: rows of 8-bit values. -/
abbrev Mask := List (List ℕ)

/-- PIL `image.size`, i.e. (width, height). -/
def imgSize (img : Img) : ℕ × ℕ :=
  ((img.pixels.headD []).length, img.pixels.length)

/-- Per-image output of the detection model: `prediction['boxes']` and
`prediction['scores']`, paired index-wise. -/
structure DetPrediction where
  boxes : List Box
  scores : List Score
deriving DecidableEq

/-- Per-image output of the segmentation model: `prediction['masks']` and
`prediction['scores']`. -/
structure SegPrediction where
  masks : List Mask
  scores : List Score
deriving DecidableEq

/-- The PIL operations the service calls but does not implement.  They are
kept abstract: theorems that need a fact about them (e.g. that
`GaussianBlur` preserves the image size) take it as a hypothesis. -/
structure PILOps where
  crop : Img → RBox → Img
  resize : Mask → ℕ × ℕ → Mask
  gaussian_blur : Img → ℚ → Img
  composite : Img → Img → Mask → Img

/-- The constant `STEPS_FOR_THRESHOLD = [0.8, 0.7, 0.6, 0.5]` (service.py line 22). -/
def STEPS_FOR_THRESHOLD : List ℚ := [0.8, 0.7, 0.6, 0.5]

/-- Python `min` of a list of rationals (raises on [], which never happens
where it is used; the default 0 is behind nonemptiness hypotheses). -/
def pyMin : List ℚ → ℚ
  | [] => 0
  | x :: xs => xs.foldl min x

/-- Python `max` of a list of rationals. -/
def pyMax : List ℚ → ℚ
  | [] => 0
  | x :: xs => xs.foldl max x

/-- The value `max(STEPS_FOR_THRESHOLD)` as computed inside the ladder loop
(service.py line 134). -/
def maxSteps : ℚ := pyMax STEPS_FOR_THRESHOLD

/-- The count `len(np.where(pred_scores_numpy > t)[0])`: the number of scores
strictly greater than `t`. -/
def countAbove (scores : List Score) (t : ℚ) : ℕ :=
  scores.countP (fun s => decide (t < s))

/-- The `for threshold in STEPS_FOR_THRESHOLD` loop (service.py lines
133-137): at every step the count of scores above `max(STEPS_FOR_THRESHOLD)`
is computed (the loop variable is unused), and the loop breaks at the first
step where the count is positive.  The value is the final `ind_max` before
the zero fallback. -/
def ladder_ind_max (scores : List Score) : List ℚ → ℕ
  | [] => 0
  | _t :: rest =>
    let c := countAbove scores maxSteps
    if 0 < c then c else ladder_ind_max scores rest

/-- The value of `ind_max` after the `if ind_max == 0: ind_max = 1` fallback
(service.py lines 138-139). -/
def ind_max_final (scores : List Score) : ℕ :=
  let i := ladder_ind_max scores STEPS_FOR_THRESHOLD
  if i = 0 then 1 else i

/-- The selection `pred_boxs_good = pred_boxs_numpy[:ind_max]` (service.py line 142). -/
def selectedBoxes (pred : DetPrediction) : List Box :=
  pred.boxes.take (ind_max_final pred.scores)

/-- The margin expansion of the relative box (service.py lines 154-158):
applied only when `k > 0`, lower coordinates clamped at 0, upper at 1. -/
def margin_clamp (k : ℚ) (b : RBox) : RBox :=
  if 0 < k then
    (max (b.1 - k) 0, max (b.2.1 - k) 0, min (b.2.2.1 + k) 1, min (b.2.2.2 + k) 1)
  else b

/-- Loop body of `jewellery_detection_get_rx_ry` for one prediction
(service.py lines 123-160).  `none` models the IndexError on
`pred_scores[0]` for an empty score tensor and the ValueError of
`min`/`max` on an empty selection. -/
def aggregate_one (shape : ℚ × ℚ) (margin : ℚ) (pred : DetPrediction) :
    Option (RBox × Score) :=
  match pred.scores with
  | [] => none
  | s0 :: _ =>
    let good := selectedBoxes pred
    if good.isEmpty then none
    else
      let best_x1 := pyMin (good.map (fun p => p.1))
      let best_y1 := pyMin (good.map (fun p => p.2.1))
      let best_x2 := pyMax (good.map (fun p => p.2.2.1))
      let best_y2 := pyMax (good.map (fun p => p.2.2.2))
      let rb : RBox :=
        (best_x1 / shape.1, best_y1 / shape.2, best_x2 / shape.1, best_y2 / shape.2)
      some (margin_clamp margin rb, s0)

/-- Function `jewellery_detection_get_rx_ry` (service.py lines 104-162), with the
model abstracted to a function from the image batch to per-image
predictions.  An exception for any image aborts the whole call. -/
def jewellery_detection_get_rx_ry (model : List Img → List DetPrediction)
    (images : List Img) (shape : ℚ × ℚ) (margin : ℚ) :
    Option (List (RBox × Score)) :=
  (model images).mapM (aggregate_one shape margin)

/-- The body of `jewellery_mask` (service.py lines 199-211).  The
`try/except` wraps the WHOLE `for` loop: per-image entries are appended
while every prediction yields a score and a mask; at the first prediction
where `prediction['scores'][0]` or `prediction['masks'][0]` raises, a
single `(None, None)` entry is appended and the function returns, dropping
all later predictions. -/
def jm_loop : List SegPrediction → List (Option Mask × Option Score)
  | [] => []
  | p :: rest =>
    match p.scores, p.masks with
    | s :: _, m :: _ => (some m, some s) :: jm_loop rest
    | _, _ => [(none, none)]

/-- Function `jewellery_mask` (service.py lines 181-211), the segmentation model
abstracted to a function from the image batch to per-image predictions. -/
def jewellery_mask (model : List Img → List SegPrediction)
    (images : List Img) : List (Option Mask × Option Score) :=
  jm_loop (model images)

/-- The numpy per-pixel alpha cleanup of `clean_image_with_mask`
(service.py lines 230-232): `x = a/255 + (r - 0.5)`, `np.clip(x, min_blur,
1)` (= `min(1, max(x, min_blur))`), then `x * 255` stored back into the
uint8 alpha channel, which truncates the float toward zero.  The values
are nonnegative whenever `0 ≤ min_blur` (the regime of the service, where
`min_blur` defaults to 0.1). -/
def cleanAlpha (a : ℕ) (r min_blur : ℚ) : ℕ :=
  (⌊(min 1 (max ((a : ℚ) / 255 + (r - 1 / 2)) min_blur)) * 255⌋).toNat

/-- Function `clean_image_with_mask` (service.py lines 214-234): identity when the
threshold `r` is `None`, otherwise every pixel keeps its RGB channels and
gets its alpha channel replaced by `cleanAlpha`. -/
def clean_image_with_mask (img : Img) (r : Option ℚ) (min_blur : ℚ) : Img :=
  match r with
  | none => img
  | some r =>
    ⟨img.pixels.map (List.map
      (fun p => (p.1, p.2.1, p.2.2.1, cleanAlpha p.2.2.2 r min_blur)))⟩

/-- One row of `putalpha`: each pixel's alpha channel is replaced by the
corresponding mask value.  In the pipeline the mask has been resized to
the image's size; a missing mask entry reads as 0. -/
def attachAlphaRow : List Pixel → List ℕ → List Pixel
  | [], _ => []
  | p :: ps, a :: as => (p.1, p.2.1, p.2.2.1, a) :: attachAlphaRow ps as
  | p :: ps, [] => (p.1, p.2.1, p.2.2.1, 0) :: attachAlphaRow ps []

/-- Rows of `putalpha`. -/
def attachAlphaRows : List (List Pixel) → List (List ℕ) → List (List Pixel)
  | [], _ => []
  | row :: rs, a :: as => attachAlphaRow row a :: attachAlphaRows rs as
  | row :: rs, [] => attachAlphaRow row [] :: attachAlphaRows rs []

/-- PIL `image.putalpha(mask)` as a pure function on the image value: the
source applies it to `copy.copy(...)` of the cropped image (service.py
lines 310-311), so the cropped image held in the result record is never
the alpha-carrying one. -/
def putalpha (img : Img) (m : Mask) : Img :=
  ⟨attachAlphaRows img.pixels m⟩

/-- PIL `image.convert('RGB')` on an RGBA image drops the alpha channel;
here the alpha channel of every pixel is set to the opaque 255. -/
def toRGB (img : Img) : Img :=
  ⟨img.pixels.map (List.map (fun p => (p.1, p.2.1, p.2.2.1, 255)))⟩

/-- The RGB content of an image, forgetting alpha. -/
def imgRGB (img : Img) : List (List (ℕ × ℕ × ℕ)) :=
  img.pixels.map (List.map (fun p => (p.1, p.2.1, p.2.2.1)))

/-- Per-image result record of `jewellery_detect_crop_mask` (service.py
lines 264-270), a Python dict.  `image_segmented` and `image_original`
are keys that `get_jewellery_image_` may add later: the outer `Option` is
key presence, so `some none` is a key present with value `None` while
`none` is an absent key. -/
structure ResRecord where
  cropped_image : Option Img
  detection_accurancy : Score
  mask : Option Mask
  segmentation_accurancy : Option Score
  image_segmented : Option (Option Img) := none
  image_original : Option Img := none
deriving DecidableEq

/-- The crop loop of `jewellery_detect_crop_mask` (service.py lines
253-258): `images[k]` for each index below `len(rboxes)`; `none` models
the IndexError when the model returned more predictions than images. -/
def crop_images (ops : PILOps) : List Img → List (RBox × Score) →
    Option (List (Img × Score))
  | _, [] => some []
  | [], _ :: _ => none
  | i :: is, (rb, acc) :: rs =>
    (crop_images ops is rs).map (fun t => (ops.crop i rb, acc) :: t)

/-- The result loop of `jewellery_detect_crop_mask` (service.py lines
262-270): `masks[k]` for each index below `len(rboxes)`; `none` models the
IndexError when `jewellery_mask` returned fewer entries than there are
cropped images. -/
def buildRecords : List (Img × Score) → List (Option Mask × Option Score) →
    Option (List ResRecord)
  | [], _ => some []
  | _ :: _, [] => none
  | (ci, acc) :: cs, (m, s) :: ms =>
    (buildRecords cs ms).map (fun t =>
      ({ cropped_image := some ci, detection_accurancy := acc, mask := m,
         segmentation_accurancy := s } : ResRecord) :: t)

/-- Function `jewellery_detect_crop_mask` (service.py lines 237-272). -/
def jewellery_detect_crop_mask (ops : PILOps)
    (model_detection : List Img → List DetPrediction)
    (model_mask : List Img → List SegPrediction)
    (images : List Img) (shape : ℚ × ℚ) (margin : ℚ) :
    Option (List ResRecord) :=
  (jewellery_detection_get_rx_ry model_detection images shape margin).bind
    (fun rboxes => (crop_images ops images rboxes).bind
      (fun cropped =>
        buildRecords cropped (jewellery_mask model_mask (cropped.map Prod.fst))))

/-- The keyword parameters of `get_jewellery_image_` (service.py lines
275-284) other than the model shape and the box margin. -/
structure Config where
  threshold_detect : ℚ
  threshold_segmentation : ℚ
  threshold_clean_mask : Option ℚ
  show_bad_results : Bool
  min_blur : ℚ
  gaussian_blur : ℚ
deriving DecidableEq

/-- Loop body of `get_jewellery_image_` for one record (service.py lines
305-326).  The whole body is guarded by `predict[k]['mask'] is not None`;
in the pipeline a record with a mask always also has a cropped image and a
segmentation score (both come from the same successful prediction), so the
remaining patterns are unreachable and leave the record unchanged. -/
def process_item (ops : PILOps) (cfg : Config) (orig : Img)
    (rec : ResRecord) : ResRecord :=
  match rec.mask, rec.cropped_image, rec.segmentation_accurancy with
  | some mask, some ci, some segacc =>
    let rmask := ops.resize mask (imgSize ci)
    let q := putalpha ci rmask
    let q_clean := clean_image_with_mask q cfg.threshold_clean_mask cfg.min_blur
    let rgb := toRGB q_clean
    let blurred := ops.gaussian_blur rgb cfg.gaussian_blur
    let composited := ops.composite rgb blurred (ops.resize mask (imgSize ci))
    let cropped' : Option Img :=
      if rec.detection_accurancy < cfg.threshold_detect ∧ cfg.show_bad_results = false
      then none else some ci
    let seg' : Option Img :=
      if segacc < cfg.threshold_segmentation ∧ cfg.show_bad_results = false
      then none else some composited
    { rec with cropped_image := cropped', image_segmented := some seg',
               image_original := some orig }
  | none, _, _ => rec
  | some _, _, _ => rec

/-- The `for k in range(rows)` loop of `get_jewellery_image_` (service.py
lines 305-326), `rows = len(images_original)`; `none` models the
IndexError when `predict` is shorter than the image list; records past
`rows` (never produced by the pipeline) would be left untouched. -/
def gj_loop (ops : PILOps) (cfg : Config) :
    List Img → List ResRecord → Option (List ResRecord)
  | [], recs => some recs
  | _ :: _, [] => none
  | img :: is, r :: rs =>
    (gj_loop ops cfg is rs).map (fun t => process_item ops cfg img r :: t)

/-- Function `get_jewellery_image_` (service.py lines 275-328). -/
def get_jewellery_image_ (ops : PILOps)
    (model_detection : List Img → List DetPrediction)
    (model_mask : List Img → List SegPrediction)
    (images : List Img) (cfg : Config) (shape : ℚ × ℚ) (margin : ℚ) :
    Option (List ResRecord) :=
  (jewellery_detect_crop_mask ops model_detection model_mask images shape
    margin).bind (fun predict => gj_loop ops cfg images predict)

/-! ### Helper lemmas -/

theorem maxSteps_eq : maxSteps = 0.8 := by
  show max (max (max (0.8 : ℚ) 0.7) 0.6) 0.5 = 0.8
  rw [max_eq_left (by norm_num), max_eq_left (by norm_num),
    max_eq_left (by norm_num)]

theorem one_le_ind_max_final (s : List Score) : 1 ≤ ind_max_final s := by
  show 1 ≤ if ladder_ind_max s STEPS_FOR_THRESHOLD = 0 then 1
           else ladder_ind_max s STEPS_FOR_THRESHOLD
  split <;> omega

theorem ladder_ind_max_eq (s : List Score) :
    ∀ ladder : List ℚ, ladder ≠ [] →
      ladder_ind_max s ladder =
        if 0 < countAbove s maxSteps then countAbove s maxSteps else 0 := by
  intro ladder
  induction ladder with
  | nil => intro h; exact absurd rfl h
  | cons t rest ih =>
    intro _
    show (if 0 < countAbove s maxSteps then countAbove s maxSteps
          else ladder_ind_max s rest) = _
    by_cases hc : 0 < countAbove s maxSteps
    · simp [hc]
    · rcases rest with _ | ⟨t', rest'⟩
      · simp [hc, ladder_ind_max]
      · rw [if_neg hc, ih (by simp), if_neg hc]

theorem selectedBoxes_ne_nil (d : DetPrediction) (h : d.boxes ≠ []) :
    selectedBoxes d ≠ [] := by
  unfold selectedBoxes
  intro hcon
  rcases List.take_eq_nil_iff.mp hcon with h0 | h0
  · have := one_le_ind_max_final d.scores
    omega
  · exact h h0

theorem foldl_min_le (as : List ℚ) :
    ∀ (a : ℚ), ∀ x ∈ a :: as, as.foldl min a ≤ x := by
  induction as with
  | nil => intro a x hx; simp at hx; simp [hx]
  | cons b bs ih =>
    intro a x hx
    show bs.foldl min (min a b) ≤ x
    rcases List.mem_cons.mp hx with h | h
    · subst h
      exact le_trans (ih (min x b) _ (List.mem_cons_self _ _)) (min_le_left _ _)
    · rcases List.mem_cons.mp h with h' | h'
      · subst h'
        exact le_trans (ih (min a x) _ (List.mem_cons_self _ _)) (min_le_right _ _)
      · exact ih (min a b) x (List.mem_cons_of_mem _ h')

theorem foldl_max_le (as : List ℚ) :
    ∀ (a : ℚ), ∀ x ∈ a :: as, x ≤ as.foldl max a := by
  induction as with
  | nil => intro a x hx; simp at hx; simp [hx]
  | cons b bs ih =>
    intro a x hx
    show x ≤ bs.foldl max (max a b)
    rcases List.mem_cons.mp hx with h | h
    · subst h
      exact le_trans (le_max_left _ _) (ih (max x b) _ (List.mem_cons_self _ _))
    · rcases List.mem_cons.mp h with h' | h'
      · subst h'
        exact le_trans (le_max_right _ _) (ih (max a x) _ (List.mem_cons_self _ _))
      · exact ih (max a b) x (List.mem_cons_of_mem _ h')

theorem pyMin_le (l : List ℚ) (x : ℚ) (hx : x ∈ l) : pyMin l ≤ x := by
  rcases l with _ | ⟨a, as⟩
  · simp at hx
  · exact foldl_min_le as a x hx

theorem le_pyMax (l : List ℚ) (x : ℚ) (hx : x ∈ l) : x ≤ pyMax l := by
  rcases l with _ | ⟨a, as⟩
  · simp at hx
  · exact foldl_max_le as a x hx

theorem foldl_min_mem (as : List ℚ) : ∀ (a : ℚ), as.foldl min a ∈ a :: as := by
  induction as with
  | nil => intro a; simp [List.foldl]
  | cons b bs ih =>
    intro a
    show bs.foldl min (min a b) ∈ a :: b :: bs
    rcases List.mem_cons.mp (ih (min a b)) with h' | h'
    · rcases min_choice a b with hab | hab <;> rw [h', hab]
      · exact List.mem_cons_self _ _
      · exact List.mem_cons_of_mem _ (List.mem_cons_self _ _)
    · exact List.mem_cons_of_mem _ (List.mem_cons_of_mem _ h')

theorem foldl_max_mem (as : List ℚ) : ∀ (a : ℚ), as.foldl max a ∈ a :: as := by
  induction as with
  | nil => intro a; simp [List.foldl]
  | cons b bs ih =>
    intro a
    show bs.foldl max (max a b) ∈ a :: b :: bs
    rcases List.mem_cons.mp (ih (max a b)) with h' | h'
    · rcases max_choice a b with hab | hab <;> rw [h', hab]
      · exact List.mem_cons_self _ _
      · exact List.mem_cons_of_mem _ (List.mem_cons_self _ _)
    · exact List.mem_cons_of_mem _ (List.mem_cons_of_mem _ h')

theorem pyMin_mem (l : List ℚ) (h : l ≠ []) : pyMin l ∈ l := by
  rcases l with _ | ⟨a, as⟩
  · exact absurd rfl h
  · exact foldl_min_mem as a

theorem pyMax_mem (l : List ℚ) (h : l ≠ []) : pyMax l ∈ l := by
  rcases l with _ | ⟨a, as⟩
  · exact absurd rfl h
  · exact foldl_max_mem as a

/-! ### Claim theorems: detection stage -/

theorem ind_max_final_eq (s : List Score) :
    ind_max_final s =
      if countAbove s maxSteps = 0 then 1 else countAbove s maxSteps := by
  show (if ladder_ind_max s STEPS_FOR_THRESHOLD = 0 then 1
        else ladder_ind_max s STEPS_FOR_THRESHOLD) = _
  rw [ladder_ind_max_eq s STEPS_FOR_THRESHOLD (by simp [STEPS_FOR_THRESHOLD])]
  by_cases hc : 0 < countAbove s maxSteps
  · rw [if_pos hc]
  · rw [if_neg hc, if_pos rfl, if_pos (by omega)]

/-- C1: per-image box selection in `jewellery_detection_get_rx_ry`: the
ladder loop computes the count of scores strictly above
`max(STEPS_FOR_THRESHOLD) = 0.8` at every step (the result is independent
of the ladder contents, and the loop returns that count as soon as the
ladder is nonempty and the count is positive, i.e. it stops at the first
step); the number of boxes selected for merging equals that count when it
is positive, and is exactly 1 — the leading, top-scoring box — when the
count is zero; in that case the selection is never empty and the
aggregation never fails. -/
theorem C1_ladder_box_selection (d : DetPrediction) (shape : ℚ × ℚ)
    (margin : ℚ) (h1 : d.scores ≠ []) (h2 : d.scores.length = d.boxes.length) :
    maxSteps = 0.8 ∧
    (∀ ladder : List ℚ, ladder ≠ [] →
      ladder_ind_max d.scores ladder =
        if 0 < countAbove d.scores maxSteps then countAbove d.scores maxSteps
        else 0) ∧
    (0 < countAbove d.scores maxSteps →
      (selectedBoxes d).length = countAbove d.scores maxSteps) ∧
    (countAbove d.scores maxSteps = 0 →
      (selectedBoxes d).length = 1 ∧ selectedBoxes d = d.boxes.take 1) ∧
    selectedBoxes d ≠ [] ∧
    aggregate_one shape margin d ≠ none := by
  have hblen : 0 < d.boxes.length := by
    have := List.length_pos.mpr h1
    omega
  have hcle : countAbove d.scores maxSteps ≤ d.boxes.length := by
    have := List.countP_le_length (fun s => decide (maxSteps < s)) (l := d.scores)
    unfold countAbove
    omega
  have hlen : (selectedBoxes d).length = min (ind_max_final d.scores) d.boxes.length := by
    unfold selectedBoxes
    exact List.length_take _ _
  refine ⟨maxSteps_eq, ladder_ind_max_eq d.scores, ?_, ?_, ?_, ?_⟩
  · intro hc
    rw [hlen, ind_max_final_eq, if_neg (by omega)]
    omega
  · intro hc
    constructor
    · rw [hlen, ind_max_final_eq, if_pos hc]
      omega
    · unfold selectedBoxes
      rw [ind_max_final_eq, if_pos hc]
  · apply List.ne_nil_of_length_pos
    rw [hlen]
    have := one_le_ind_max_final d.scores
    omega
  · rcases hd : d.scores with _ | ⟨s0, rest⟩
    · exact absurd hd h1
    · have hne : selectedBoxes d ≠ [] := by
        apply List.ne_nil_of_length_pos
        rw [hlen]
        have := one_le_ind_max_final d.scores
        omega
      simp only [aggregate_one, hd]
      simp [List.isEmpty_iff, hne]

/-- A detection with no score above 0.8: the zero-count fallback applies. -/
def witnessDet : DetPrediction :=
  ⟨[((0 : ℚ), 0, 2, 2), ((1 : ℚ), 1, 3, 3)], [0.79, 0.2]⟩

theorem C1_ladder_box_selection_witness :
    (selectedBoxes witnessDet).length = 1 ∧
    selectedBoxes witnessDet = witnessDet.boxes.take 1 :=
  (C1_ladder_box_selection witnessDet (384, 384) 0.02
      (by simp [witnessDet]) (by simp [witnessDet])).2.2.2.1
    (by simp only [witnessDet, countAbove, maxSteps_eq, List.countP_cons,
          List.countP_nil]
        norm_num)

/-- C7: the detection confidence reported per image is element 0 of that
image's score list, whatever the number of selected and merged boxes. -/
theorem C7_confidence_is_top_score (d : DetPrediction) (shape : ℚ × ℚ)
    (margin : ℚ) (h1 : d.scores ≠ []) (h2 : d.boxes ≠ []) :
    (aggregate_one shape margin d).map Prod.snd = d.scores.head? := by
  rcases hd : d.scores with _ | ⟨s0, rest⟩
  · exact absurd hd h1
  · have hne := selectedBoxes_ne_nil d h2
    simp only [aggregate_one, hd]
    simp [List.isEmpty_iff, hne]

theorem C7_confidence_is_top_score_witness :
    (aggregate_one (384, 384) 0.02 witnessDet).map Prod.snd =
      witnessDet.scores.head? :=
  C7_confidence_is_top_score witnessDet (384, 384) 0.02
    (by simp [witnessDet]) (by simp [witnessDet])

/-- C5: the selected boxes are merged into their union bounding box (the
computed x1/y1 are lower bounds of all selected x1_i/y1_i and the computed
x2/y2 upper bounds of all x2_i/y2_i, and each is attained by some selected
box), the merged coordinates are divided by the model input width/height,
the margin is subtracted from (rx1, ry1) clamped at 0 and added to
(rx2, ry2) clamped at 1 exactly when it is positive, and the box
(0, 0, 1, 1) is a fixed point of the margin step for margin 0.1. -/
theorem C5_union_box_and_margin (d : DetPrediction) (w h margin : ℚ)
    (s0 : Score) (rest : List Score)
    (h1 : d.scores = s0 :: rest) (h2 : d.boxes ≠ []) :
    (∀ b ∈ selectedBoxes d,
      pyMin ((selectedBoxes d).map (fun p => p.1)) ≤ b.1 ∧
      pyMin ((selectedBoxes d).map (fun p => p.2.1)) ≤ b.2.1 ∧
      b.2.2.1 ≤ pyMax ((selectedBoxes d).map (fun p => p.2.2.1)) ∧
      b.2.2.2 ≤ pyMax ((selectedBoxes d).map (fun p => p.2.2.2))) ∧
    pyMin ((selectedBoxes d).map (fun p => p.1)) ∈
      (selectedBoxes d).map (fun p => p.1) ∧
    pyMax ((selectedBoxes d).map (fun p => p.2.2.1)) ∈
      (selectedBoxes d).map (fun p => p.2.2.1) ∧
    aggregate_one (w, h) margin d =
      some (margin_clamp margin
        (pyMin ((selectedBoxes d).map (fun p => p.1)) / w,
         pyMin ((selectedBoxes d).map (fun p => p.2.1)) / h,
         pyMax ((selectedBoxes d).map (fun p => p.2.2.1)) / w,
         pyMax ((selectedBoxes d).map (fun p => p.2.2.2)) / h), s0) ∧
    (0 < margin → ∀ b : RBox, margin_clamp margin b =
      (max (b.1 - margin) 0, max (b.2.1 - margin) 0,
       min (b.2.2.1 + margin) 1, min (b.2.2.2 + margin) 1)) ∧
    margin_clamp (0.1 : ℚ) ((0 : ℚ), (0 : ℚ), (1 : ℚ), (1 : ℚ)) =
      ((0 : ℚ), (0 : ℚ), (1 : ℚ), (1 : ℚ)) := by
  have hne := selectedBoxes_ne_nil d h2
  refine ⟨?_, ?_, ?_, ?_, ?_, ?_⟩
  · intro b hb
    exact ⟨pyMin_le _ _ (List.mem_map_of_mem _ hb),
      pyMin_le _ _ (List.mem_map_of_mem _ hb),
      le_pyMax _ _ (List.mem_map_of_mem _ hb),
      le_pyMax _ _ (List.mem_map_of_mem _ hb)⟩
  · exact pyMin_mem _ (by simpa using hne)
  · exact pyMax_mem _ (by simpa using hne)
  · simp only [aggregate_one, h1]
    simp [List.isEmpty_iff, hne]
  · intro hm b
    rw [margin_clamp, if_pos hm]
  · rw [margin_clamp, if_pos (by norm_num)]
    norm_num [max_def, min_def]

theorem C5_union_box_and_margin_witness :
    margin_clamp (0.1 : ℚ) ((0 : ℚ), (0 : ℚ), (1 : ℚ), (1 : ℚ)) =
      ((0 : ℚ), (0 : ℚ), (1 : ℚ), (1 : ℚ)) :=
  (C5_union_box_and_margin witnessDet 384 384 0.02 0.79 [0.2]
    (by simp [witnessDet]) (by simp [witnessDet])).2.2.2.2.2

/-! ### Claim theorems: mask cleanup -/

/-- The alpha channel of the pixel at row `i`, column `j`, when it exists. -/
def alphaAt? (img : Img) (i j : ℕ) : Option ℕ :=
  ((img.pixels[i]?).bind (fun row => row[j]?)).map (fun p => p.2.2.2)

theorem alphaAt?_clean (img : Img) (r m : ℚ) (i j : ℕ) :
    alphaAt? (clean_image_with_mask img (some r) m) i j =
      (alphaAt? img i j).map (fun a => cleanAlpha a r m) := by
  unfold alphaAt? clean_image_with_mask
  rw [List.getElem?_map]
  rcases img.pixels[i]? with _ | row
  · rfl
  · simp only [Option.map_some', Option.some_bind, List.getElem?_map]
    rcases row[j]? with _ | p
    · rfl
    · rfl

theorem cleanAlpha_mono (a : ℕ) (r1 r2 m : ℚ) (hr : r1 ≤ r2) :
    cleanAlpha a r1 m ≤ cleanAlpha a r2 m := by
  unfold cleanAlpha
  apply Int.toNat_le_toNat
  apply Int.floor_le_floor
  apply mul_le_mul_of_nonneg_right _ (by norm_num)
  apply min_le_min (le_refl 1)
  apply max_le_max _ (le_refl m)
  linarith

/-- A 1×1 fully transparent black RGBA image. -/
def cexImg : Img := ⟨[[(0, 0, 0, 0)]]⟩

/-- C3 counterexample: raising the threshold from 0.6 to 0.9 RAISES the
cleaned alpha of the pixel from 25 to 102 (the bias `r - 0.5` is added to
the normalized alpha, so a larger threshold can only increase it),
refuting "increasing `threshold` strictly decreases or holds the
post-cleaned alpha value at every pixel". -/
theorem C3_monotonicity_counterexample :
    (0.6 : ℚ) ≤ 0.9 ∧
    alphaAt? (clean_image_with_mask cexImg (some 0.6) 0.1) 0 0 = some 25 ∧
    alphaAt? (clean_image_with_mask cexImg (some 0.9) 0.1) 0 0 = some 102 ∧
    ¬ (102 : ℕ) ≤ 25 := by
  refine ⟨by norm_num, ?_, ?_, by omega⟩ <;>
    · rw [alphaAt?_clean]
      show Option.map _ (some 0) = _
      rw [Option.map_some']
      rw [cleanAlpha]
      norm_num [min_def, max_def]
      rfl

/-- C3 (amended): for a fixed nonnegative `min_floor` and a fixed input
mask, increasing the `threshold` parameter of `clean_image_with_mask`
INCREASES or holds the post-cleaned alpha value at every pixel — it never
decreases any pixel's alpha. -/
theorem C3_threshold_monotone_increasing (img : Img) (r1 r2 m : ℚ)
    (hm : 0 ≤ m) (hr : r1 ≤ r2) (i j : ℕ) (a1 a2 : ℕ)
    (ha1 : alphaAt? (clean_image_with_mask img (some r1) m) i j = some a1)
    (ha2 : alphaAt? (clean_image_with_mask img (some r2) m) i j = some a2) :
    a1 ≤ a2 := by
  rw [alphaAt?_clean] at ha1 ha2
  rcases hat : alphaAt? img i j with _ | a
  · rw [hat] at ha1
    simp at ha1
  · rw [hat] at ha1 ha2
    rw [Option.map_some'] at ha1 ha2
    have e1 : a1 = cleanAlpha a r1 m := by
      injection ha1 with h'; exact h'.symm
    have e2 : a2 = cleanAlpha a r2 m := by
      injection ha2 with h'; exact h'.symm
    rw [e1, e2]
    exact cleanAlpha_mono a r1 r2 m hr

theorem C3_threshold_monotone_increasing_witness :
    ∃ a1 a2 : ℕ,
      alphaAt? (clean_image_with_mask cexImg (some 0.6) 0.1) 0 0 = some a1 ∧
      alphaAt? (clean_image_with_mask cexImg (some 0.7) 0.1) 0 0 = some a2 ∧
      a1 ≤ a2 := by
  refine ⟨cleanAlpha 0 0.6 0.1, cleanAlpha 0 0.7 0.1, ?_, ?_, ?_⟩
  · rw [alphaAt?_clean]; rfl
  · rw [alphaAt?_clean]; rfl
  · exact C3_threshold_monotone_increasing cexImg 0.6 0.7 0.1 (by norm_num)
      (by norm_num) 0 0 _ _ (by rw [alphaAt?_clean]; rfl)
      (by rw [alphaAt?_clean]; rfl)

/-- C4 counterexample: with `threshold = 0.6` and `min_floor = 0.1` the
fully transparent pixel is cleaned to alpha 25, because the clamped float
value `0.1 * 255 = 25.5` is truncated when stored back into the 8-bit
alpha channel — so the cleaned alpha is NOT ≥ `min_floor * 255 = 25.5`. -/
theorem C4_floor_counterexample :
    alphaAt? (clean_image_with_mask cexImg (some 0.6) 0.1) 0 0 = some 25 ∧
    ¬ ((0.1 : ℚ) * 255 ≤ (25 : ℚ)) := by
  constructor
  · rw [alphaAt?_clean]
    show Option.map _ (some 0) = _
    rw [Option.map_some', cleanAlpha]
    norm_num [min_def, max_def]
    rfl
  · norm_num

/-- C4 (amended): every pixel of the cleaned image has an alpha value of
at least `⌊min_floor * 255⌋` (25 for the default `min_floor = 0.1`): the
clamp guarantees the float value is at least `min_floor * 255` and the
store into the 8-bit channel truncates it toward zero. -/
theorem C4_floor_invariant (img : Img) (r m : ℚ) (hm0 : 0 ≤ m)
    (hm1 : m ≤ 1) :
    ∀ row ∈ (clean_image_with_mask img (some r) m).pixels, ∀ p ∈ row,
      (⌊m * 255⌋).toNat ≤ p.2.2.2 := by
  intro row hrow p hp
  unfold clean_image_with_mask at hrow
  rcases List.mem_map.mp hrow with ⟨row0, _, hrow0⟩
  subst hrow0
  rcases List.mem_map.mp hp with ⟨p0, _, hp0⟩
  subst hp0
  show (⌊m * 255⌋).toNat ≤ cleanAlpha p0.2.2.2 r m
  unfold cleanAlpha
  apply Int.toNat_le_toNat
  apply Int.floor_le_floor
  apply mul_le_mul_of_nonneg_right _ (by norm_num)
  exact le_min hm1 (le_max_right _ _)

theorem C4_floor_invariant_witness :
    (⌊(0.1 : ℚ) * 255⌋).toNat ≤
      (((0 : ℕ), (0 : ℕ), (0 : ℕ), cleanAlpha 0 0.6 0.1) : Pixel).2.2.2 :=
  C4_floor_invariant cexImg 0.6 0.1 (by norm_num) (by norm_num)
    [((0 : ℕ), (0 : ℕ), (0 : ℕ), cleanAlpha 0 0.6 0.1)]
    (List.mem_cons_self _ _)
    (((0 : ℕ), (0 : ℕ), (0 : ℕ), cleanAlpha 0 0.6 0.1) : Pixel)
    (List.mem_cons_self _ _)

/-! ### Helper lemmas for the orchestrator claims -/

theorem aggregate_one_isSome (d : DetPrediction) (shape : ℚ × ℚ) (margin : ℚ)
    (h1 : d.scores ≠ []) (h2 : d.boxes ≠ []) :
    ∃ v, aggregate_one shape margin d = some v := by
  rcases hd : d.scores with _ | ⟨s0, rest⟩
  · exact absurd hd h1
  · have hne := selectedBoxes_ne_nil d h2
    simp only [aggregate_one, hd]
    simp [List.isEmpty_iff, hne]

theorem map_attachAlphaRow (row : List Pixel) (g : Pixel → α)
    (hg : ∀ p q : Pixel, p.1 = q.1 → p.2.1 = q.2.1 → p.2.2.1 = q.2.2.1 → g p = g q) :
    ∀ a : List ℕ, (attachAlphaRow row a).map g = row.map g := by
  induction row with
  | nil => intro a; cases a <;> rfl
  | cons p ps ih =>
    intro a
    cases a with
    | nil =>
      show g (p.1, p.2.1, p.2.2.1, 0) :: (attachAlphaRow ps []).map g = _
      rw [ih [], hg (p.1, p.2.1, p.2.2.1, 0) p rfl rfl rfl]
      rfl
    | cons b bs =>
      show g (p.1, p.2.1, p.2.2.1, b) :: (attachAlphaRow ps bs).map g = _
      rw [ih bs, hg (p.1, p.2.1, p.2.2.1, b) p rfl rfl rfl]
      rfl

theorem map_attachAlphaRows (rows : List (List Pixel)) (g : Pixel → α)
    (hg : ∀ p q : Pixel, p.1 = q.1 → p.2.1 = q.2.1 → p.2.2.1 = q.2.2.1 → g p = g q) :
    ∀ ms : List (List ℕ),
      (attachAlphaRows rows ms).map (List.map g) = rows.map (List.map g) := by
  induction rows with
  | nil => intro ms; cases ms <;> rfl
  | cons row rs ih =>
    intro ms
    cases ms with
    | nil =>
      show (attachAlphaRow row []).map g :: (attachAlphaRows rs []).map (List.map g) = _
      rw [ih [], map_attachAlphaRow row g hg []]
      rfl
    | cons a as =>
      show (attachAlphaRow row a).map g :: (attachAlphaRows rs as).map (List.map g) = _
      rw [ih as, map_attachAlphaRow row g hg a]
      rfl

theorem toRGB_putalpha (img : Img) (m : Mask) :
    toRGB (putalpha img m) = toRGB img := by
  unfold toRGB putalpha
  congr 1
  exact map_attachAlphaRows img.pixels _ (by intro p q h1 h2 h3; simp [h1, h2, h3]) m

theorem toRGB_clean (img : Img) (r : Option ℚ) (m : ℚ) :
    toRGB (clean_image_with_mask img r m) = toRGB img := by
  rcases r with _ | r
  · rfl
  · unfold toRGB clean_image_with_mask
    congr 1
    simp [List.map_map, Function.comp]

theorem imgRGB_putalpha (img : Img) (m : Mask) :
    imgRGB (putalpha img m) = imgRGB img := by
  unfold imgRGB putalpha
  exact map_attachAlphaRows img.pixels _ (by intro p q h1 h2 h3; simp [h1, h2, h3]) m

theorem imgSize_toRGB (img : Img) : imgSize (toRGB img) = imgSize img := by
  unfold imgSize toRGB
  rcases himg : img.pixels with _ | ⟨row, rows⟩
  · rfl
  · simp

theorem jm_loop_append_fail (pf : SegPrediction)
    (hf : pf.scores = [] ∨ pf.masks = []) :
    ∀ preds : List SegPrediction,
      (∀ p ∈ preds, p.scores ≠ [] ∧ p.masks ≠ []) →
      jm_loop (preds ++ [pf]) =
        preds.map (fun p => (p.masks.head?, p.scores.head?)) ++ [(none, none)] := by
  intro preds
  induction preds with
  | nil =>
    intro _
    rcases pf with ⟨ms, ss⟩
    rcases hf with hf | hf <;> simp only at hf <;> subst hf
    · rcases ms with _ | ⟨m, ms'⟩ <;> rfl
    · rcases ss with _ | ⟨s, ss'⟩ <;> rfl
  | cons p rest ih =>
    intro h
    obtain ⟨hs, hm⟩ := h p (List.mem_cons_self _ _)
    rcases hps : p.scores with _ | ⟨s, ss⟩
    · exact absurd hps hs
    · rcases hpm : p.masks with _ | ⟨m, ms⟩
      · exact absurd hpm hm
      · show jm_loop (p :: (rest ++ [pf])) = _
        have : jm_loop (p :: (rest ++ [pf])) =
            (some m, some s) :: jm_loop (rest ++ [pf]) := by
          simp only [jm_loop, hps, hpm]
        rw [this, ih (fun q hq => h q (List.mem_cons_of_mem _ hq))]
        simp [hps, hpm]

theorem buildRecords_unset_keys :
    ∀ (cs : List (Img × Score)) (ms : List (Option Mask × Option Score))
      (recs : List ResRecord), buildRecords cs ms = some recs →
      ∀ r ∈ recs, r.image_segmented = none ∧ r.image_original = none := by
  intro cs
  induction cs with
  | nil =>
    intro ms recs h r hr
    rcases h
    simp at hr
  | cons c cs' ih =>
    intro ms recs h r hr
    rcases c with ⟨ci, acc⟩
    rcases ms with _ | ⟨⟨m, s⟩, ms'⟩
    · exact absurd h (by simp [buildRecords])
    · rcases Option.map_eq_some'.mp h with ⟨t, ht, hrecs⟩
      subst hrecs
      rcases List.mem_cons.mp hr with h' | h'
      · subst h'
        exact ⟨rfl, rfl⟩
      · exact ih ms' t ht r h'

/-! ### Concrete fixtures for witnesses and counterexamples -/

/-- Identity-like PIL operations, used to instantiate witness scenarios. -/
def ops0 : PILOps := ⟨fun i _ => i, fun m _ => m, fun i _ => i, fun a _ _ => a⟩

def imgA : Img := ⟨[[(1, 2, 3, 255)]]⟩

def imgB : Img := ⟨[[(4, 5, 6, 255)]]⟩

/-- Default configuration with `show_bad_results = True`. -/
def cfg0 : Config := ⟨0.98, 0.99, some 0.9, true, 0.1, 20⟩

/-- Default configuration with `show_bad_results = False` (gating on). -/
def cfg1 : Config := ⟨0.98, 0.99, some 0.9, false, 0.1, 20⟩

/-- A record with a mask, detection score 0.5, segmentation score 0.995. -/
def rec0 : ResRecord := ⟨some imgA, 0.5, some [[200]], some 0.995, none, none⟩

/-- A record whose segmentation failed: mask and confidence absent. -/
def rec2 : ResRecord := ⟨some imgA, 0.5, none, none, none, none⟩

/-- A detection prediction with one box and one score. -/
def detP : DetPrediction := ⟨[((0 : ℚ), 0, 10, 10)], [0.9]⟩

/-- A detection model returning one good prediction per image. -/
def detModel2 : List Img → List DetPrediction := fun _ => [detP, detP]

/-- A segmentation model whose prediction for the FIRST image is empty
(no instances: `scores[0]` / `masks[0]` raise) and good for the second. -/
def maskModelFailFirst : List Img → List SegPrediction :=
  fun _ => [⟨[], []⟩, ⟨[[[200]]], [0.9]⟩]

/-! ### Claim theorems: segmentation failure handling (C2) -/

/-- C2 counterexample: with two images where the SEGMENTATION fails for
the first image only, `jewellery_mask` returns a single `(None, None)`
entry — not one entry per image — and `jewellery_detect_crop_mask` then
fails for the whole batch (IndexError on `masks[1]`), refuting "the batch
call still returns one result per input image" and "every other image's
mask, confidence, and composited result are unaffected". -/
theorem C2_batch_isolation_counterexample :
    jewellery_mask maskModelFailFirst [imgA, imgB] = [(none, none)] ∧
    (jewellery_mask maskModelFailFirst [imgA, imgB]).length ≠ 2 ∧
    jewellery_detect_crop_mask ops0 detModel2 maskModelFailFirst
      [imgA, imgB] (384, 384) 0.02 = none := by
  refine ⟨rfl, by simp [jewellery_mask, maskModelFailFirst, jm_loop], ?_⟩
  obtain ⟨v, hv⟩ := aggregate_one_isSome detP (384, 384) 0.02
    (by simp [detP]) (by simp [detP])
  have hdet : jewellery_detection_get_rx_ry detModel2 [imgA, imgB]
      (384, 384) 0.02 = some [v, v] := by
    simp [jewellery_detection_get_rx_ry, detModel2, List.mapM, List.mapM.loop, hv]
  rcases v with ⟨rb, acc⟩
  have hcrop : crop_images ops0 [imgA, imgB] [(rb, acc), (rb, acc)] =
      some [(ops0.crop imgA rb, acc), (ops0.crop imgB rb, acc)] := by
    simp [crop_images]
  rw [jewellery_detect_crop_mask, hdet, Option.some_bind, hcrop,
    Option.some_bind]
  have hjm : jewellery_mask maskModelFailFirst
      ([(ops0.crop imgA rb, acc), (ops0.crop imgB rb, acc)].map Prod.fst) =
      [(none, none)] := rfl
  rw [hjm]
  rfl

/-- C2 (amended): the per-image isolation holds only when the failing
image is the LAST of the batch: if every earlier prediction yields a score
and a mask and the last one does not, `jewellery_mask` returns one entry
per input image in input order, with the failing image's mask and
confidence both absent and every earlier image's mask and confidence those
of its own prediction.  (If the failing image is not last, the later
images' entries are dropped and the downstream batch call fails.) -/
theorem C2_last_image_failure_isolated
    (model : List Img → List SegPrediction) (images : List Img)
    (preds : List SegPrediction) (pf : SegPrediction)
    (hmodel : model images = preds ++ [pf])
    (h : ∀ p ∈ preds, p.scores ≠ [] ∧ p.masks ≠ [])
    (hf : pf.scores = [] ∨ pf.masks = []) :
    jewellery_mask model images =
      preds.map (fun p => (p.masks.head?, p.scores.head?)) ++ [(none, none)] ∧
    (jewellery_mask model images).length = preds.length + 1 := by
  have := jm_loop_append_fail pf hf preds h
  constructor
  · rw [jewellery_mask, hmodel]
    exact this
  · rw [jewellery_mask, hmodel, this]
    simp

theorem C2_last_image_failure_isolated_witness :
    jewellery_mask (fun _ => [⟨[[[200]]], [0.9]⟩, ⟨[], []⟩]) [imgA, imgB] =
      [(some [[200]], some 0.9), (none, none)] ∧
    (jewellery_mask (fun _ => [⟨[[[200]]], [0.9]⟩, ⟨[], []⟩]) [imgA, imgB]).length =
      1 + 1 := by
  have h := C2_last_image_failure_isolated
    (fun _ => [⟨[[[200]]], [0.9]⟩, ⟨[], []⟩]) [imgA, imgB]
    [⟨[[[200]]], [0.9]⟩] ⟨[], []⟩ rfl
    (by intro p hp; simp at hp; subst hp; simp) (Or.inl rfl)
  exact ⟨h.1, h.2⟩

/-! ### Claim theorems: quality gating (C6) and absent mask (C10) -/

/-- C6: for a record with a mask (the branch where gating runs), with
`show_bad_results = False` the orchestrator loop body nulls the cropped
image exactly when the detection confidence is below `threshold_detect`,
and stores `None` in the final-image key exactly when the segmentation
confidence is below `threshold_segmentation`; the original image is stored
and both confidence values are left untouched. -/
theorem C6_quality_gating (ops : PILOps) (cfg : Config) (orig : Img)
    (rec : ResRecord) (mask : Mask) (ci : Img) (segacc : Score)
    (hm : rec.mask = some mask) (hc : rec.cropped_image = some ci)
    (hs : rec.segmentation_accurancy = some segacc)
    (hb : cfg.show_bad_results = false) :
    ((process_item ops cfg orig rec).cropped_image = none ↔
      rec.detection_accurancy < cfg.threshold_detect) ∧
    ((process_item ops cfg orig rec).image_segmented = some none ↔
      segacc < cfg.threshold_segmentation) ∧
    (process_item ops cfg orig rec).image_original = some orig ∧
    (process_item ops cfg orig rec).detection_accurancy =
      rec.detection_accurancy ∧
    (process_item ops cfg orig rec).segmentation_accurancy =
      rec.segmentation_accurancy := by
  simp only [process_item, hm, hc, hs, hb]
  refine ⟨?_, ?_, by trivial, by trivial, by trivial⟩
  · by_cases hd : rec.detection_accurancy < cfg.threshold_detect <;>
      simp [hd]
  · by_cases hg : segacc < cfg.threshold_segmentation <;> simp [hg]

theorem C6_quality_gating_witness :
    (process_item ops0 cfg1 imgA rec0).cropped_image = none ∧
    (process_item ops0 cfg1 imgA rec0).detection_accurancy = 0.5 := by
  have h := C6_quality_gating ops0 cfg1 imgA rec0 [[200]] imgA 0.995
    rfl rfl rfl rfl
  refine ⟨h.1.mpr ?_, h.2.2.2.1.trans rfl⟩
  show (0.5 : ℚ) < 0.98
  norm_num

/-- C10: for a record whose mask is absent (`None`), the orchestrator loop
body is skipped entirely: the record is returned unchanged, so the
final-image and original-image keys are never set, quality gating is not
applied even when `show_bad_results` is false, and the cropped image and
detection confidence survive as produced by the earlier stages; moreover
every record built by `jewellery_detect_crop_mask` starts with both of
those keys unset. -/
theorem C10_absent_mask_skips_item (ops : PILOps) (cfg : Config)
    (orig : Img) (rec : ResRecord) (hm : rec.mask = none) :
    process_item ops cfg orig rec = rec ∧
    (∀ (cs : List (Img × Score)) (ms : List (Option Mask × Option Score))
      (recs : List ResRecord), buildRecords cs ms = some recs →
      ∀ r ∈ recs, r.image_segmented = none ∧ r.image_original = none) := by
  constructor
  · simp [process_item, hm]
  · exact buildRecords_unset_keys

theorem C10_absent_mask_skips_item_witness :
    process_item ops0 cfg1 imgA rec2 = rec2 :=
  (C10_absent_mask_skips_item ops0 cfg1 imgA rec2 rfl).1

/-! ### Claim theorems: compositor (C8) and absence of mutation (C9) -/

/-- C8: the composite stored in the final-image key blends the sharp RGB
content of the crop over its Gaussian-blurred copy using the RAW mask
resized to the crop's pixel size as the blend mask: the floor-processed
alpha produced by `clean_image_with_mask` drops out entirely (the RGB
conversion discards it), so the expression is independent of
`threshold_clean_mask` and `min_blur`; and under the PIL contracts that
blur and composite preserve the size of their first image argument, the
output has the same pixel dimensions as the cropped input, for any blur
radius ≥ 0. -/
theorem C8_composite_uses_raw_mask (ops : PILOps) (cfg : Config)
    (orig : Img) (rec : ResRecord) (mask : Mask) (ci : Img) (segacc : Score)
    (hm : rec.mask = some mask) (hc : rec.cropped_image = some ci)
    (hs : rec.segmentation_accurancy = some segacc)
    (hb : cfg.show_bad_results = true)
    (hr : 0 ≤ cfg.gaussian_blur)
    (hblur : ∀ im q, imgSize (ops.gaussian_blur im q) = imgSize im)
    (hcomp : ∀ a b mk, imgSize (ops.composite a b mk) = imgSize a) :
    (process_item ops cfg orig rec).image_segmented =
      some (some (ops.composite (toRGB ci)
        (ops.gaussian_blur (toRGB ci) cfg.gaussian_blur)
        (ops.resize mask (imgSize ci)))) ∧
    imgSize (ops.composite (toRGB ci)
      (ops.gaussian_blur (toRGB ci) cfg.gaussian_blur)
      (ops.resize mask (imgSize ci))) = imgSize ci := by
  constructor
  · simp only [process_item, hm, hc, hs, hb]
    rw [toRGB_clean, toRGB_putalpha]
    simp
  · rw [hcomp, imgSize_toRGB]

theorem C8_composite_uses_raw_mask_witness :
    (process_item ops0 cfg0 imgA rec0).image_segmented =
      some (some (ops0.composite (toRGB imgA)
        (ops0.gaussian_blur (toRGB imgA) cfg0.gaussian_blur)
        (ops0.resize [[200]] (imgSize imgA)))) :=
  (C8_composite_uses_raw_mask ops0 cfg0 imgA rec0 [[200]] imgA 0.995
    rfl rfl rfl rfl (by norm_num [cfg0])
    (fun _ _ => rfl) (fun _ _ _ => rfl)).1

/-- C9: the compositing and mask-cleanup stages mutate no caller-supplied
or mid-pipeline image: `clean_image_with_mask` builds a new image whose
RGB content equals its input's RGB content (the input value itself is
untouched), and the alpha attachment happens on a copy, so the cropped
image stored in the result record (gating off) is exactly the crop
produced by the earlier stage, not the alpha-carrying composite input. -/
theorem C9_no_inplace_mutation :
    (∀ (img : Img) (r : Option ℚ) (m : ℚ),
      imgRGB (clean_image_with_mask img r m) = imgRGB img) ∧
    (∀ (img : Img) (m : Mask), imgRGB (putalpha img m) = imgRGB img) ∧
    (∀ (ops : PILOps) (cfg : Config) (orig : Img) (rec : ResRecord)
      (ci : Img), rec.cropped_image = some ci →
      cfg.show_bad_results = true →
      (process_item ops cfg orig rec).cropped_image = some ci) := by
  refine ⟨?_, imgRGB_putalpha, ?_⟩
  · intro img r m
    rcases r with _ | r
    · rfl
    · unfold imgRGB clean_image_with_mask
      simp [List.map_map, Function.comp]
  · intro ops cfg orig rec ci hc hb
    rcases hmk : rec.mask with _ | mask
    · simp [process_item, hmk, hc]
    · rcases hsa : rec.segmentation_accurancy with _ | segacc
      · simp [process_item, hmk, hsa, hc]
      · simp only [process_item, hmk, hsa, hc, hb]
        simp

theorem C9_no_inplace_mutation_witness :
    imgRGB (clean_image_with_mask cexImg (some 0.9) 0.1) = imgRGB cexImg ∧
    (process_item ops0 cfg0 imgA rec0).cropped_image = some imgA :=
  ⟨C9_no_inplace_mutation.1 cexImg (some 0.9) 0.1,
   C9_no_inplace_mutation.2.2 ops0 cfg0 imgA rec0 imgA rfl rfl⟩

end BestBackground
